import Mathlib

/-!
Verification development for `pixelate.py` (cnmoro/pixel-camera).

The Python source is a linear image-processing pipeline built on library
calls (PIL, cv2, ffmpeg).  We shallowly embed it:

* text files become `Option (List String)` (`none` = file does not exist,
  `some lines` = the file's lines);
* raised exceptions become `Except Unit`;
* `print` diagnostics become an explicit `List String` of messages;
* images become a structure of explicit width/height and a pixel function;
* IEEE-754 double arithmetic (Python's `/` on ints and `int * float`)
  is embedded as exact rationals rounded to 53 significant bits with
  round-to-nearest, ties-to-even (`round53`), which is exact for all values
  in the normal range that arise here (no overflow/subnormals for image
  dimensions);
* the PIL enhancement operators (`ImageEnhance.Brightness/Contrast`) and the
  automatic median-cut quantizer are library internals, not code of this
  repository; the pipeline takes them as explicit function parameters and the
  claims never depend on their internals (the factor-1.0 guards in the source
  skip the enhancement calls entirely);
* `resize(..., resample=Image.NEAREST)` samples, for output pixel `x`, the
  source column `floor((x + 0.5) * src_w / dst_w)` (pixel-center nearest
  sampling, as PIL's scale-affine nearest path does), embedded with exact
  natural-number arithmetic;
* `quantize(palette=..., dither=Image.NONE)` maps every pixel to the palette
  entry of minimal squared Euclidean RGB distance (first such entry on ties;
  PIL's tie order is deterministic but unspecified, and no claim depends on
  the tie choice).
-/

/-! ## Python string primitives used by `load_palette_from_file` -/

/-- ASCII whitespace recognized by Python's `str.strip()` and `int()`:
space, `\t`, `\n`, `\v`, `\f`, `\r` and the separators `\x1c`-`\x1f`.
(The Unicode-only whitespace code points U+0085, U+00A0 and the Zs
category, which CPython also strips, are outside the model: palette files
are ASCII.) -/
def isPySpace (c : Char) : Bool :=
  c = ' ' || c = '\t' || c = '\n' || c = '\x0d' || c = '\x0b' || c = '\x0c' ||
    c = '\x1c' || c = '\x1d' || c = '\x1e' || c = '\x1f'

/-- Python `line.strip()`: drop leading and trailing whitespace. -/
def pyStrip (s : String) : String :=
  String.mk (((s.data.dropWhile isPySpace).reverse.dropWhile isPySpace).reverse)

/-- Python `line.lstrip('#')`: drop every leading `#`.  The source guards this
with `line.startswith('#')`, which is equivalent to applying it
unconditionally (on a line not starting with `#` it strips nothing). -/
def pyLstripHash (s : String) : String :=
  String.mk (s.data.dropWhile (fun c => c = '#'))

/-- Python slice `s[a:b]` for `0 ≤ a ≤ b` (clamped at the end of the string). -/
def pySlice (s : String) (a b : Nat) : String :=
  String.mk ((s.data.drop a).take (b - a))

def isHexDigit (c : Char) : Bool :=
  ('0' ≤ c && c ≤ '9') || ('a' ≤ c && c ≤ 'f') || ('A' ≤ c && c ≤ 'F')

def hexDigitVal (c : Char) : Nat :=
  if '0' ≤ c && c ≤ '9' then c.toNat - '0'.toNat
  else if 'a' ≤ c && c ≤ 'f' then c.toNat - 'a'.toNat + 10
  else if 'A' ≤ c && c ≤ 'F' then c.toNat - 'A'.toNat + 10
  else 0

/-- Strip ASCII whitespace from both ends of a character list (the list
form of `pyStrip`, shared with the `int()` model below). -/
def stripChars (l : List Char) : List Char :=
  ((l.dropWhile isPySpace).reverse.dropWhile isPySpace).reverse

/-- Digit run of Python's integer grammar: one or more hex digits with
single underscores allowed strictly between digits (`1_2` parses, `_1`,
`1_` and `1__2` do not), accumulating into `acc`. -/
def parseDigitsTail (acc : Nat) : List Char → Option Nat
  | [] => some acc
  | c :: rest =>
    if c = '_' then
      match rest with
      | [] => none
      | d :: rest2 =>
        if isHexDigit d then parseDigitsTail (16 * acc + hexDigitVal d) rest2
        else none
    else
      if isHexDigit c then parseDigitsTail (16 * acc + hexDigitVal c) rest
      else none

/-- Digit run of Python's integer grammar: must start with a hex digit. -/
def parseDigits (cs : List Char) : Option Nat :=
  match cs with
  | [] => none
  | c :: rest =>
    if isHexDigit c then parseDigitsTail (hexDigitVal c) rest else none

/-- The part of Python's base-16 integer grammar after the optional sign:
an optional `0x`/`0X` prefix (an underscore may directly follow the
prefix, as in `0x_ff`), then the digit run. -/
def parseHexBody (cs : List Char) : Option Nat :=
  match cs with
  | c1 :: c2 :: rest =>
    if c1 = '0' ∧ (c2 = 'x' ∨ c2 = 'X') then
      match rest with
      | [] => none
      | r :: rest2 => if r = '_' then parseDigits rest2 else parseDigits rest
    else parseDigits (c1 :: c2 :: rest)
  | _ => parseDigits cs

/-- Python `int(s, 16)` as applied to the loader's slices: surrounding
whitespace is stripped, then an optional single sign, an optional
`0x`/`0X` prefix, and a non-empty run of hex digits (underscores allowed
singly between digits); anything else raises `ValueError` (`none`).  So,
for example, `" C"` parses to 12, `"+1"` to 1 and `"-5"` to -5, exactly as
in CPython.  (Unicode-only whitespace and non-ASCII digit forms, which
CPython also tolerates, are outside the model: palette files are ASCII.) -/
def pyInt16 (s : String) : Option ℤ :=
  match stripChars s.data with
  | [] => none
  | c :: rest =>
    if c = '+' then (parseHexBody rest).map Int.ofNat
    else if c = '-' then (parseHexBody rest).map (fun n => -Int.ofNat n)
    else (parseHexBody (c :: rest)).map Int.ofNat

/-! ## Palette loader (`load_palette_from_file`, lines 5–27) -/

/-- An RGB color: `tuple(int(line[i:i+2], 16) for i in (0, 2, 4))`.
Components are integers: `int()` accepts a sign, so a pathological line
such as `-1FFFF` contributes a negative component (Python only fails later,
in `putpalette`); decoded image pixels always lie in `[0, 255]`. -/
def Color : Type := ℤ × ℤ × ℤ

instance : DecidableEq Color := by unfold Color; infer_instance

instance : Inhabited Color := ⟨(0, 0, 0)⟩

/-- One loop iteration of `load_palette_from_file`: strip the line, strip a
leading `#`, and parse the three fixed-offset 2-character slices `[0:2]`,
`[2:4]`, `[4:6]` as hex bytes; `none` means Python would raise `ValueError`. -/
def parseLine (raw : String) : Option Color :=
  match pyInt16 (pySlice (pyLstripHash (pyStrip raw)) 0 2),
      pyInt16 (pySlice (pyLstripHash (pyStrip raw)) 2 4),
      pyInt16 (pySlice (pyLstripHash (pyStrip raw)) 4 6) with
  | some r, some g, some b => some (r, g, b)
  | _, _, _ => none

/-- The value a (successfully parsed) line contributes to the palette. -/
def lineColor (raw : String) : Color :=
  (parseLine raw).getD (0, 0, 0)

/-- The loader's `for line in file` loop over the file's lines; an unparsable
line raises (`Except.error`), aborting the whole load. -/
def parseLines : List String → Except Unit (List Color)
  | [] => Except.ok []
  | l :: ls =>
    match parseLine l with
    | none => Except.error ()
    | some c =>
      match parseLines ls with
      | Except.error e => Except.error e
      | Except.ok cs => Except.ok (c :: cs)

/-- The diagnostic printed on `FileNotFoundError` (line 25). -/
def missingMsg (path : String) : String :=
  "Palette file " ++ "'" ++ path ++ "'" ++ " not found. Using default quantization."

/-- The loader `load_palette_from_file`.  The filesystem is embedded as
`content : Option (List String)` (`none` = the path does not exist).  The
result pairs the returned value (`none` = Python `None`) with the printed
diagnostics; `Except.error` is an uncaught exception (`ValueError` from a
malformed line). -/
def load_palette_from_file (path : String) (content : Option (List String)) :
    Except Unit (Option (List Color) × List String) :=
  match content with
  | none => Except.ok (none, [missingMsg path])
  | some lines =>
    match parseLines lines with
    | Except.error e => Except.error e
    | Except.ok cs => Except.ok (some cs, [])

/-! ## IEEE-754 double-precision arithmetic, as exact rationals

`aspect_ratio = original_height / original_width` (line 60) and
`int(target_width * aspect_ratio)` (line 63) are computed by Python in
binary64.  We embed binary64 values as the exact rationals they denote and
each operation as the exact rational result rounded to 53 significant bits,
round-to-nearest ties-to-even.  Exponents of the values arising here are far
inside the normal range, so overflow and subnormals are not modelled. -/

/-- Fueled binary logarithm on `Nat` (`log2n fuel n = ⌊log₂ n⌋` whenever
`n < 2 ^ fuel`; the fuel used below vastly exceeds every concrete input). -/
def log2n : Nat → Nat → Nat
  | 0, _ => 0
  | f + 1, n => if 2 ≤ n then log2n f (n / 2) + 1 else 0

/-- A non-negative binary64 value: `m * 2 ^ (e - 52)` with mantissa
`m ∈ [2^52, 2^53]` for nonzero values (every value in this program is
non-negative, so the sign bit is not modelled). -/
structure D64 where
  m : Nat
  e : ℤ
deriving DecidableEq

/-- The exact rational a `D64` denotes (for specification reading only;
never evaluated by the kernel). -/
def D64.toRat (d : D64) : ℚ := (d.m : ℚ) * (2 : ℚ) ^ (d.e - 52)

/-- Computes `⌊log₂ (a / b)⌋` for positive naturals `a`, `b`. -/
def floorLog2F (a b : Nat) : ℤ :=
  if b ≤ a then (log2n 300 (a / b) : ℤ)
  else
    let L := log2n 300 (b / a)
    if b = a * 2 ^ L then -(L : ℤ) else -((L : ℤ) + 1)

/-- Round the non-negative fraction `p / q` to an integer, round-to-nearest
with ties to even (also the semantics of Python's builtin `round`). -/
def roundHalfEvenF (p q : Nat) : Nat :=
  let n := p / q
  let r := p % q
  if 2 * r < q then n
  else if q < 2 * r then n + 1
  else if n % 2 = 0 then n else n + 1

/-- The fraction `(a / b) * 2 ^ k`, as a numerator/denominator pair. -/
def scaleFrac (a b : Nat) (k : ℤ) : Nat × Nat :=
  if 0 ≤ k then (a * 2 ^ k.toNat, b) else (a, b * 2 ^ (-k).toNat)

/-- Correctly round the positive fraction `a / b` to binary64 (normal
range; the magnitudes in this program are nowhere near overflow or
subnormals). -/
def round53F (a b : Nat) : D64 :=
  let e := floorLog2F a b
  let s := scaleFrac a b (52 - e)
  ⟨roundHalfEvenF s.1 s.2, e⟩

/-- Python `h / w` on ints: the exact quotient, correctly rounded to
binary64.  (`w = 0` would raise `ZeroDivisionError`; a decoded image always
has positive width, and the claims touching this carry that hypothesis.) -/
def ddiv (a b : Nat) : D64 :=
  if a = 0 ∨ b = 0 then ⟨0, 0⟩ else round53F a b

/-- Python `W * aspect` with `W : int`, `aspect : float`: `W` converts to
binary64 exactly (all widths here are far below `2^53`) and the product is
correctly rounded. -/
def dmul (W : Nat) (d : D64) : D64 :=
  if W = 0 ∨ d.m = 0 then ⟨0, 0⟩
  else
    let s := scaleFrac (W * d.m) 1 (d.e - 52)
    round53F s.1 s.2

/-- Python `int()` on a non-negative float: truncation (= floor here). -/
def D64.floorN (d : D64) : Nat :=
  let s := scaleFrac d.m 1 (d.e - 52)
  s.1 / s.2

/-- Python `round()` on a non-negative float: nearest integer, ties to
even. -/
def D64.roundN (d : D64) : Nat :=
  let s := scaleFrac d.m 1 (d.e - 52)
  roundHalfEvenF s.1 s.2

/-- The computation `target_height = int(target_width * aspect_ratio)` (lines 60–63), with
`aspect_ratio = original_height / original_width` computed in binary64. -/
def pyTargetHeight (W h w : Nat) : Nat :=
  (dmul W (ddiv h w)).floorN

deriving instance DecidableEq for Except

/-- A line the spec calls valid: after stripping whitespace and the leading
`#`s, exactly 6 hex digits. -/
def ValidHexLine (raw : String) : Prop :=
  (pyLstripHash (pyStrip raw)).data.length = 6 ∧
    (pyLstripHash (pyStrip raw)).data.all isHexDigit = true

instance (raw : String) : Decidable (ValidHexLine raw) := by
  unfold ValidHexLine; infer_instance

/-! ## Images and the PIL operations `pixelate_image` performs -/

/-- An in-memory RGB image: explicit dimensions and a pixel function
(only the values at `x < w`, `y < h` are meaningful). -/
structure Img where
  w : Nat
  h : Nat
  pix : Nat → Nat → Color

/-- Extensional equality of images on their actual pixel grid: same
dimensions and the same pixel value at every in-range coordinate. -/
def ImageEq (A B : Img) : Prop :=
  A.w = B.w ∧ A.h = B.h ∧
    ∀ x y, x < A.w → y < A.h → A.pix x y = B.pix x y

/-- The resize `image.resize((w, h), resample=Image.NEAREST)`: output pixel `(x, y)`
takes the source pixel at column `⌊(x + 1/2) · srcW / w⌋` and row
`⌊(y + 1/2) · srcH / h⌋` (pixel-center nearest sampling), written with
natural-number division. -/
def resizeNearest (img : Img) (w h : Nat) : Img :=
  ⟨w, h, fun x y =>
    img.pix ((2 * x + 1) * img.w / (2 * w)) ((2 * y + 1) * img.h / (2 * h))⟩

/-- Squared Euclidean distance between two RGB colors. -/
def colorDist (a b : Color) : ℤ :=
  (a.1 - b.1) ^ 2 + (a.2.1 - b.2.1) ^ 2 + (a.2.2 - b.2.2) ^ 2

/-- Nearest palette entry to `c` (first entry of minimal squared distance;
the `[]` case is unreachable: the source only quantizes with a palette when
the loaded list is non-empty). -/
def nearestColor (P : List Color) (c : Color) : Color :=
  match P with
  | [] => c
  | p :: ps => ps.foldl (fun best q =>
      if colorDist c q < colorDist c best then q else best) p

/-- The call `image.quantize(palette=palette_image, dither=Image.NONE)` (line 76),
read back as RGB values: every pixel maps to the nearest palette color,
no dithering. -/
def quantizeToPalette (P : List Color) (img : Img) : Img :=
  ⟨img.w, img.h, fun x y => nearestColor P (img.pix x y)⟩

/-- The brightness step (lines 49–51): the enhancement library call runs
only when the factor differs from `1.0`.  `enh` stands for PIL's
`ImageEnhance.Brightness(...).enhance`, a library internal the claims never
evaluate. -/
def brightnessStep (enh : ℚ → Img → Img) (factor : ℚ) (img : Img) : Img :=
  if factor ≠ 1 then enh factor img else img

/-- The contrast step (lines 54–56), same shape as `brightnessStep`. -/
def contrastStep (enh : ℚ → Img → Img) (factor : ℚ) (img : Img) : Img :=
  if factor ≠ 1 then enh factor img else img

/-- The pipeline `pixelate_image` (lines 29–90).  The first three arguments are the
library operations the source delegates to: PIL brightness enhancement, PIL
contrast enhancement, and PIL `quantize(colors=n, method=Image.MEDIANCUT,
dither=Image.NONE)` (automatic median-cut quantization to `n` colors).
`palette_file` is `none` when the argument is Python-falsy, otherwise the
path together with the file's content (`none` = file missing).  The result
is the image written to `output_path` paired with the printed diagnostics;
`Except.error` is an uncaught exception (a malformed palette line). -/
def pixelate_image (enhB enhC : ℚ → Img → Img) (quantAuto : Nat → Img → Img)
    (input : Img) (target_width palette_size pixel_scale : Nat)
    (brightness_factor contrast_factor : ℚ)
    (palette_file : Option (String × Option (List String))) :
    Except Unit (Img × List String) :=
  let image := contrastStep enhC contrast_factor
    (brightnessStep enhB brightness_factor input)
  let target_height := pyTargetHeight target_width image.h image.w
  let small := resizeNearest image target_width target_height
  let quantized : Except Unit (Img × List String) :=
    match palette_file with
    | none => Except.ok (quantAuto palette_size small, [])
    | some (path, content) =>
      match load_palette_from_file path content with
      | Except.error e => Except.error e
      | Except.ok (pal, logs) =>
        match pal with
        | some (c :: cs) => Except.ok (quantizeToPalette (c :: cs) small, logs)
        | _ => Except.ok (quantAuto palette_size small, logs)
  match quantized with
  | Except.error e => Except.error e
  | Except.ok (q, logs) =>
    Except.ok
      (resizeNearest q (target_width * pixel_scale) (target_height * pixel_scale),
        logs)

/-- The image a successful run writes (`error` yields a dummy; used only to
state closed counterexamples without binders). -/
def runImg (r : Except Unit (Img × List String)) : Img :=
  match r with
  | Except.ok (i, _) => i
  | Except.error _ => ⟨0, 0, fun _ _ => (0, 0, 0)⟩

/-! ## Video pipeline (`find_framerate`, `pixelate_video`, lines 92–174)

The cv2 decoder is embedded as the list of frames it yields (already
converted BGR→RGB, line 141) together with the probed native frame rate;
ffmpeg as a flag saying whether its exit status is zero.  Frame rates are
rationals; they are only compared, never kernel-evaluated. -/

/-- Python `f"{i:05d}"`: decimal digits of `i`, zero-padded to width at
least 5. -/
def pad5 (i : Nat) : String :=
  let s := Nat.repr i
  if s.length < 5 then String.mk (List.replicate (5 - s.length) '0') ++ s else s

/-- The file name of pixelated frame `i` inside the temporary directory
(line 148 / the `frame_%05d_pixelated.png` ffmpeg input pattern). -/
def frameName (i : Nat) : String :=
  "frame_" ++ pad5 i ++ "_pixelated.png"

/-- Frame-rate cap (lines 123–124): `if fps > detected_framerate: fps =
detected_framerate`. -/
def effectiveFps (fps native : ℚ) : ℚ :=
  if fps > native then native else fps

/-- The per-frame call to `pixelate_image` (lines 149–158): same parameters
for every frame; the frame itself is the input image. -/
def framePixelate (enhB enhC : ℚ → Img → Img) (quantAuto : Nat → Img → Img)
    (target_width palette_size pixel_scale : Nat)
    (brightness_factor contrast_factor : ℚ)
    (palette_file : Option (String × Option (List String))) (frame : Img) :
    Except Unit Img :=
  match pixelate_image enhB enhC quantAuto frame target_width palette_size
      pixel_scale brightness_factor contrast_factor palette_file with
  | Except.error e => Except.error e
  | Except.ok (i, _) => Except.ok i

/-- The frame loop (lines 133–160): `frame_count` starts at `idx`, each
decoded frame is pixelated to `frame_{idx:05d}_pixelated.png`, and an
exception from `pixelate_image` aborts the loop. -/
def processFrames (pixFn : Img → Except Unit Img) :
    Nat → List Img → Except Unit (List (String × Img))
  | _, [] => Except.ok []
  | idx, f :: fs =>
    match pixFn f with
    | Except.error e => Except.error e
    | Except.ok g =>
      match processFrames pixFn (idx + 1) fs with
      | Except.error e => Except.error e
      | Except.ok rest => Except.ok ((frameName idx, g) :: rest)

/-- Observable outcome of one `pixelate_video` call. -/
structure VideoRun where
  effFps : ℚ
  frames : List (String × Img)
  released : Bool
  tempCleaned : Bool
  result : Except Unit Unit

/-- The driver `pixelate_video` (lines 96–174).  The `with TemporaryDirectory()` block
cleans the temporary directory on every exit path; `video.release()` (line
162) runs only when the frame loop finishes normally; ffmpeg runs after
that, and a non-zero exit status raises (`subprocess.run(..., check=True)`). -/
def pixelate_video (enhB enhC : ℚ → Img → Img) (quantAuto : Nat → Img → Img)
    (target_width palette_size pixel_scale : Nat)
    (brightness_factor contrast_factor : ℚ)
    (palette_file : Option (String × Option (List String)))
    (fps native : ℚ) (decodedFrames : List Img) (ffmpegOk : Bool) : VideoRun :=
  let eff := effectiveFps fps native
  let pixFn := framePixelate enhB enhC quantAuto target_width palette_size
    pixel_scale brightness_factor contrast_factor palette_file
  match processFrames pixFn 0 decodedFrames with
  | Except.error e =>
    { effFps := eff, frames := [], released := false, tempCleaned := true,
      result := Except.error e }
  | Except.ok outs =>
    { effFps := eff, frames := outs, released := true, tempCleaned := true,
      result := if ffmpegOk then Except.ok () else Except.error () }

/-! ## Lemmas about the palette loader -/

theorem hex_ne {c d : Char} (h : isHexDigit c = true)
    (hd : isHexDigit d = false) : c ≠ d := by
  intro he
  rw [he, hd] at h
  cases h

theorem not_space_of_hex {c : Char} (h : isHexDigit c = true) :
    isPySpace c = false := by
  have h1 : c ≠ ' ' := hex_ne h (by decide)
  have h2 : c ≠ '\t' := hex_ne h (by decide)
  have h3 : c ≠ '\n' := hex_ne h (by decide)
  have h4 : c ≠ '\x0d' := hex_ne h (by decide)
  have h5 : c ≠ '\x0b' := hex_ne h (by decide)
  have h6 : c ≠ '\x0c' := hex_ne h (by decide)
  have h7 : c ≠ '\x1c' := hex_ne h (by decide)
  have h8 : c ≠ '\x1d' := hex_ne h (by decide)
  have h9 : c ≠ '\x1e' := hex_ne h (by decide)
  have h10 : c ≠ '\x1f' := hex_ne h (by decide)
  unfold isPySpace
  simp [h1, h2, h3, h4, h5, h6, h7, h8, h9, h10]

theorem dropWhile_space_of_hex {l : List Char}
    (h : ∀ c ∈ l, isHexDigit c = true) : l.dropWhile isPySpace = l := by
  cases l with
  | nil => rfl
  | cons c rest =>
    rw [List.dropWhile_cons,
      not_space_of_hex (h c (List.mem_cons_self c rest))]
    simp

theorem stripChars_of_hex {l : List Char}
    (h : ∀ c ∈ l, isHexDigit c = true) : stripChars l = l := by
  unfold stripChars
  rw [dropWhile_space_of_hex h,
    dropWhile_space_of_hex (fun c hc => h c (List.mem_reverse.mp hc)),
    List.reverse_reverse]

theorem parseDigitsTail_some {cs : List Char} :
    ∀ acc : Nat, (∀ c ∈ cs, isHexDigit c = true) →
      (parseDigitsTail acc cs).isSome = true := by
  induction cs with
  | nil => intro acc _; rfl
  | cons c rest ih =>
    intro acc h
    have hc : isHexDigit c = true := h c (List.mem_cons_self c rest)
    have hne : c ≠ '_' := hex_ne hc (by decide)
    have step : parseDigitsTail acc (c :: rest) =
        parseDigitsTail (16 * acc + hexDigitVal c) rest := by
      conv_lhs => rw [parseDigitsTail.eq_def]
      dsimp only
      rw [if_neg hne, if_pos hc]
    rw [step]
    exact ih _ (fun d hd => h d (List.mem_cons.mpr (Or.inr hd)))

theorem parseDigits_some {cs : List Char} (hne : cs ≠ [])
    (h : ∀ c ∈ cs, isHexDigit c = true) : (parseDigits cs).isSome = true := by
  cases cs with
  | nil => exact absurd rfl hne
  | cons c rest =>
    show (if isHexDigit c then parseDigitsTail (hexDigitVal c) rest
      else none).isSome = true
    rw [if_pos (h c (List.mem_cons_self c rest))]
    exact parseDigitsTail_some _ (fun d hd => h d (List.mem_cons.mpr (Or.inr hd)))

theorem parseHexBody_some {cs : List Char} (hne : cs ≠ [])
    (h : ∀ c ∈ cs, isHexDigit c = true) : (parseHexBody cs).isSome = true := by
  match cs with
  | [] => exact absurd rfl hne
  | [c1] => exact parseDigits_some (by simp) h
  | c1 :: c2 :: rest =>
    have hc2 : isHexDigit c2 = true := h c2 (by simp)
    have hpre : ¬(c1 = '0' ∧ (c2 = 'x' ∨ c2 = 'X')) := by
      rintro ⟨-, hx | hx⟩
      · exact hex_ne hc2 (by decide) hx
      · exact hex_ne hc2 (by decide) hx
    show (if c1 = '0' ∧ (c2 = 'x' ∨ c2 = 'X') then _
      else parseDigits (c1 :: c2 :: rest)).isSome = true
    rw [if_neg hpre]
    exact parseDigits_some (by simp) h

theorem pyInt16_isSome {s : String} (hne : s.data ≠ [])
    (hall : s.data.all isHexDigit = true) : (pyInt16 s).isSome = true := by
  have h : ∀ c ∈ s.data, isHexDigit c = true := List.all_eq_true.mp hall
  unfold pyInt16
  rw [stripChars_of_hex h]
  cases hd : s.data with
  | nil => exact absurd hd hne
  | cons c rest =>
    rw [hd] at h
    have hc : isHexDigit c = true := h c (List.mem_cons_self c rest)
    show (if c = '+' then (parseHexBody rest).map Int.ofNat
      else if c = '-' then (parseHexBody rest).map (fun n => -Int.ofNat n)
      else (parseHexBody (c :: rest)).map Int.ofNat).isSome = true
    rw [if_neg (hex_ne hc (by decide)), if_neg (hex_ne hc (by decide))]
    have hb := @parseHexBody_some (c :: rest) (by simp) h
    cases hp : parseHexBody (c :: rest) with
    | none => rw [hp] at hb; cases hb
    | some n => rfl

theorem parseLine_of_valid {l : String} (h : ValidHexLine l) :
    parseLine l = some (lineColor l) := by
  obtain ⟨h1, h2⟩ := h
  have hall := List.all_eq_true.mp h2
  have hslice : ∀ a : Nat, a + 2 ≤ 6 →
      (pyInt16 (pySlice (pyLstripHash (pyStrip l)) a (a + 2))).isSome = true := by
    intro a ha
    apply pyInt16_isSome
    · show ((((pyLstripHash (pyStrip l)).data.drop a).take (a + 2 - a))) ≠ []
      intro hnil
      have := congrArg List.length hnil
      simp [List.length_take, List.length_drop, h1] at this
      omega
    · show ((((pyLstripHash (pyStrip l)).data.drop a).take (a + 2 - a))).all
        isHexDigit = true
      refine List.all_eq_true.mpr ?_
      intro c hc
      exact hall c (List.mem_of_mem_drop (List.mem_of_mem_take hc))
  obtain ⟨r, hr⟩ := Option.isSome_iff_exists.mp (hslice 0 (by omega))
  obtain ⟨g, hg⟩ := Option.isSome_iff_exists.mp (hslice 2 (by omega))
  obtain ⟨b, hb⟩ := Option.isSome_iff_exists.mp (hslice 4 (by omega))
  rw [show (0 : Nat) + 2 = 2 from rfl] at hr
  rw [show (2 : Nat) + 2 = 4 from rfl] at hg
  rw [show (4 : Nat) + 2 = 6 from rfl] at hb
  unfold lineColor
  unfold parseLine
  rw [hr, hg, hb]
  rfl

theorem parseLines_of_valid {lines : List String}
    (h : ∀ l ∈ lines, ValidHexLine l) :
    parseLines lines = Except.ok (lines.map lineColor) := by
  induction lines with
  | nil => rfl
  | cons l ls ih =>
    have hl := parseLine_of_valid (h l (by simp))
    have hls := ih (fun x hx => h x (by simp [hx]))
    unfold parseLines
    rw [hl, hls]
    rfl

theorem parseLines_of_bad {lines : List String} {l : String} (hmem : l ∈ lines)
    (hbad : parseLine l = none) : parseLines lines = Except.error () := by
  induction lines with
  | nil => cases hmem
  | cons a as ih =>
    unfold parseLines
    rcases List.mem_cons.mp hmem with h | h
    · subst h
      rw [hbad]
    · cases ha : parseLine a with
      | none => rfl
      | some c => rw [ih h]

/-! ## Claim theorems -/

/-- C2: a palette file whose every line is a valid hex color token loads to
exactly one `(r, g, b)` color per line, in file order, with no diagnostic;
a path that does not exist yields the distinct "no palette" signal `none`
(not an empty list), after printing a diagnostic. -/
theorem C2_palette_load_valid_and_missing :
    (∀ (path : String) (lines : List String), (∀ l ∈ lines, ValidHexLine l) →
      load_palette_from_file path (some lines) =
        Except.ok (some (lines.map lineColor), [])) ∧
    (∀ path : String,
      load_palette_from_file path none =
        Except.ok (none, [missingMsg path])) := by
  constructor
  · intro path lines h
    show (match parseLines lines with
      | Except.error e => Except.error e
      | Except.ok cs => Except.ok (some cs, [])) =
        Except.ok (some (lines.map lineColor), [])
    rw [parseLines_of_valid h]
  · intro path
    rfl

/-- Witness for C2 at the spec's own scenario: a file containing `#FFFFFF`
and `000000` loads to `[(255,255,255), (0,0,0)]`, and a missing file gives
`none` plus the diagnostic. -/
theorem C2_palette_load_valid_and_missing_witness :
    load_palette_from_file "palettes/oil-6.txt" (some ["#FFFFFF", "000000"]) =
      Except.ok (some [(255, 255, 255), (0, 0, 0)], []) ∧
    load_palette_from_file "palettes/oil-6.txt" none =
      Except.ok (none, [missingMsg "palettes/oil-6.txt"]) :=
  ⟨(C2_palette_load_valid_and_missing.1 "palettes/oil-6.txt"
      ["#FFFFFF", "000000"] (by decide)).trans (by decide),
   C2_palette_load_valid_and_missing.2 "palettes/oil-6.txt"⟩

/-- C3, counterexample to the claim as stated: lines that are not exactly
6 hex digits after stripping are accepted silently — `"FFFFF"` (five hex
digits; the slice `[4:6]` holds a single digit) loads as `(0xFF, 0xFF,
0xF)`, `"1234567"` (seven digits; the seventh is ignored) as `(0x12, 0x34,
0x56)`, `"AB CDEF"` (inner space; `int(" C", 16) = 12`) as `(0xAB, 0xC,
0xDE)`, and `"+1FFFF"` (sign; `int("+1", 16) = 1`) as `(0x1, 0xFF, 0xFF)`.
None of these loads raises. -/
theorem C3_counterexample :
    load_palette_from_file "p" (some ["FFFFF"]) =
      Except.ok (some [(255, 255, 15)], []) ∧
    load_palette_from_file "p" (some ["1234567"]) =
      Except.ok (some [(18, 52, 86)], []) ∧
    load_palette_from_file "p" (some ["AB CDEF"]) =
      Except.ok (some [(171, 12, 222)], []) ∧
    load_palette_from_file "p" (some ["+1FFFF"]) =
      Except.ok (some [(1, 255, 255)], []) := by
  refine ⟨by decide, by decide, by decide, by decide⟩

/-- C3, amended: not every line that is not exactly 6 hex digits is fatal.
A line whose three fixed-offset slices `[0:2]`, `[2:4]`, `[4:6]` of the
stripped token all parse under Python's `int(_, 16)` — which besides plain
hex digits tolerates surrounding whitespace, a sign, a `0x` prefix and
single underscores between digits — is silently accepted (see the
counterexample).  A line on which some slice's parse raises `ValueError`
(for instance a token of fewer than 5 characters, such as `"12"`) anywhere
in the file makes the whole load raise; no such malformed line is ever
silently skipped. -/
theorem C3_bad_line_fatal {lines : List String} {l : String}
    (hmem : l ∈ lines) (hbad : parseLine l = none) (path : String) :
    load_palette_from_file path (some lines) = Except.error () := by
  show (match parseLines lines with
    | Except.error e => Except.error e
    | Except.ok cs => Except.ok (some cs, [])) = Except.error ()
  rw [parseLines_of_bad hmem hbad]

/-- Witness for C3's amended theorem: a 2-character line is fatal. -/
theorem C3_bad_line_fatal_witness :
    load_palette_from_file "p" (some ["00FF00", "12"]) = Except.error () :=
  C3_bad_line_fatal (l := "12") (by decide) (by decide) "p"

/-- C5: with `brightness_factor = 1.0` and `contrast_factor = 1.0` the two
enhancement steps of `pixelate_image` are skipped outright (the guards on
lines 49 and 54 compare against `1.0`), so every pixel value — indeed the
whole image — is unchanged before the downscale, whatever the library's
enhancement operators are. -/
theorem C5_identity_enhancement (enhB enhC : ℚ → Img → Img) (img : Img) :
    contrastStep enhC 1 (brightnessStep enhB 1 img) = img ∧
    brightnessStep enhB 1 img = img := by
  constructor <;> simp [brightnessStep, contrastStep]

/-- C7: the effective encoding frame rate of `pixelate_video` is the
minimum of the requested and the probed native rate, hence never exceeds
the native rate; requesting 30 on a 24-fps source yields 24. -/
theorem C7_fps_cap (enhB enhC : ℚ → Img → Img) (quantAuto : Nat → Img → Img)
    (tw ps s : Nat) (bf cf : ℚ) (pf : Option (String × Option (List String)))
    (fps native : ℚ) (frames : List Img) (ffmpegOk : Bool) :
    (pixelate_video enhB enhC quantAuto tw ps s bf cf pf fps native frames
        ffmpegOk).effFps = min fps native ∧
    min fps native ≤ native ∧
    effectiveFps 30 24 = 24 := by
  refine ⟨?_, min_le_right fps native, ?_⟩
  · have heff : effectiveFps fps native = min fps native := by
      unfold effectiveFps
      rcases le_or_lt fps native with h | h
      · rw [if_neg (not_lt.mpr h), min_eq_left h]
      · rw [if_pos h, min_eq_right h.le]
    unfold pixelate_video
    dsimp only
    cases hp : processFrames (framePixelate enhB enhC quantAuto tw ps s bf cf pf)
        0 frames <;> simp [heff]
  · unfold effectiveFps
    norm_num

/-- C9: a palette file that exists but is empty loads to the empty list,
which is Python-falsy, so `pixelate_image` silently falls back to automatic
median-cut quantization with `palette_size` colors — the run is
indistinguishable from passing no palette file at all, including the empty
diagnostic log.  A missing file takes the same fallback but first prints
the not-found diagnostic. -/
theorem C9_empty_palette_silent_fallback (enhB enhC : ℚ → Img → Img)
    (quantAuto : Nat → Img → Img) (img : Img) (tw ps s : Nat) (bf cf : ℚ)
    (path : String) :
    pixelate_image enhB enhC quantAuto img tw ps s bf cf
        (some (path, some [])) =
      pixelate_image enhB enhC quantAuto img tw ps s bf cf none ∧
    pixelate_image enhB enhC quantAuto img tw ps s bf cf none =
      Except.ok
        (runImg (pixelate_image enhB enhC quantAuto img tw ps s bf cf none),
          []) ∧
    pixelate_image enhB enhC quantAuto img tw ps s bf cf
        (some (path, none)) =
      Except.ok
        (runImg (pixelate_image enhB enhC quantAuto img tw ps s bf cf none),
          [missingMsg path]) := by
  refine ⟨rfl, rfl, rfl⟩

/-! ## Output dimensions (claims C1 and C6) -/

/-- Identity stand-in for the library enhancement operators, used in closed
statements (at factor 1.0 the pipeline never calls them). -/
def idEnh : ℚ → Img → Img := fun _ i => i

/-- Identity stand-in for the automatic median-cut quantizer, used in closed
statements about dimensions and control flow (which never depend on it). -/
def idQuantAuto : Nat → Img → Img := fun _ i => i

/-- A solid test image of the given size. -/
def constImg (w h : Nat) : Img := ⟨w, h, fun _ _ => (200, 100, 50)⟩

/-- Whatever the quantization branch did, a successful `pixelate_image` run
ends with the enlargement resize, so the output dimensions are
`(target_width * pixel_scale, target_height * pixel_scale)` with
`target_height = int(target_width * (h / w))` computed in binary64 on the
dimensions of the enhanced image. -/
theorem pixelate_image_dims (enhB enhC : ℚ → Img → Img)
    (quantAuto : Nat → Img → Img) (img : Img) (W ps s : Nat) (bf cf : ℚ)
    (pf : Option (String × Option (List String))) (out : Img)
    (logs : List String)
    (h : pixelate_image enhB enhC quantAuto img W ps s bf cf pf =
      Except.ok (out, logs)) :
    out.w = W * s ∧
    out.h = pyTargetHeight W (contrastStep enhC cf (brightnessStep enhB bf img)).h
      (contrastStep enhC cf (brightnessStep enhB bf img)).w * s := by
  unfold pixelate_image at h
  dsimp only at h
  split at h
  · exact absurd h (by simp)
  · simp only [Except.ok.injEq, Prod.mk.injEq] at h
    obtain ⟨h1, -⟩ := h
    subst h1
    exact ⟨rfl, rfl⟩

/-- C1, counterexample to the claim as stated: on a decodable 49×1 input
with `target_width = 98` and `pixel_scale = 1`, the written output is
98 × 1, but the claim's `floor(W * original_height / original_width) *
pixel_scale` is `floor(98 * 1 / 49) * 1 = 2`.  (`aspect_ratio = 1/49`
rounds to a binary64 just below `1/49`; `98 * aspect_ratio` evaluates to
`1.9999999999999998`, and `int()` truncates it to 1.) -/
theorem C1_counterexample :
    (pixelate_image idEnh idEnh idQuantAuto (constImg 49 1) 98 64 1 1 1
      none).isOk = true ∧
    (runImg (pixelate_image idEnh idEnh idQuantAuto (constImg 49 1) 98 64 1 1 1
      none)).w = 98 ∧
    (runImg (pixelate_image idEnh idEnh idQuantAuto (constImg 49 1) 98 64 1 1 1
      none)).h = 1 ∧
    ⌊98 * (1 : ℚ) / 49⌋ = 2 := by
  refine ⟨by decide, by decide, by decide, ?_⟩
  rw [show 98 * (1 : ℚ) / 49 = ((2 : ℤ) : ℚ) by norm_num, Int.floor_intCast]

/-- C1, amended: for every decodable input (positive width) and
`target_width W > 0`, `pixel_scale s > 0`, a successful `pixelate_image`
run writes an image of dimensions exactly `(W * s, T * s)` where
`T = int(W * (h / w))` is computed in binary64 in the source's operation
order (divide first, then multiply, then truncate) on the dimensions of the
input after brightness/contrast adjustment; `T` can be one less than the
exact `floor(W * h / w)` (for example a 49×1 input with `W = 98`). -/
theorem C1_output_dimensions (enhB enhC : ℚ → Img → Img)
    (quantAuto : Nat → Img → Img) (img : Img) (W ps s : Nat) (bf cf : ℚ)
    (pf : Option (String × Option (List String)))
    (hW : 0 < W) (hs : 0 < s)
    (hw : 0 < (contrastStep enhC cf (brightnessStep enhB bf img)).w)
    (hok : (pixelate_image enhB enhC quantAuto img W ps s bf cf pf).isOk
      = true) :
    (runImg (pixelate_image enhB enhC quantAuto img W ps s bf cf pf)).w
      = W * s ∧
    (runImg (pixelate_image enhB enhC quantAuto img W ps s bf cf pf)).h
      = pyTargetHeight W
          (contrastStep enhC cf (brightnessStep enhB bf img)).h
          (contrastStep enhC cf (brightnessStep enhB bf img)).w * s := by
  cases hres : pixelate_image enhB enhC quantAuto img W ps s bf cf pf with
  | error e => rw [hres] at hok; simp [Except.isOk, Except.toBool] at hok
  | ok p =>
    have := pixelate_image_dims enhB enhC quantAuto img W ps s bf cf pf
      p.1 p.2 (by rw [hres])
    obtain ⟨i, ls⟩ := p
    exact this

/-- Witness for C1's amended theorem at the spec's own scenario: a 512×256
input, `target_width = 256`, `pixel_scale = 8` gives a 2048×1024 output
(`pyTargetHeight 256 256 512 = 128`). -/
theorem C1_output_dimensions_witness :
    (runImg (pixelate_image idEnh idEnh idQuantAuto (constImg 512 256)
      256 64 8 1 1 none)).w = 256 * 8 ∧
    (runImg (pixelate_image idEnh idEnh idQuantAuto (constImg 512 256)
      256 64 8 1 1 none)).h
      = pyTargetHeight 256
          (contrastStep idEnh 1 (brightnessStep idEnh 1 (constImg 512 256))).h
          (contrastStep idEnh 1 (brightnessStep idEnh 1 (constImg 512 256))).w
          * 8 :=
  C1_output_dimensions idEnh idEnh idQuantAuto (constImg 512 256) 256 64 8 1 1
    none (by decide) (by decide) (by decide) (by decide)

/-- C6, counterexample to the claim as stated: a 4×3 input with
`target_width = 2`, `pixel_scale = 1` gives output height
`int(2 * 0.75) = 1`, but the claim's `round(target_width * aspect_ratio)`
is `round(1.5) = 2` (banker's rounding, and any conventional rounding,
gives 2). -/
theorem C6_counterexample :
    (pixelate_image idEnh idEnh idQuantAuto (constImg 4 3) 2 64 1 1 1
      none).isOk = true ∧
    (runImg (pixelate_image idEnh idEnh idQuantAuto (constImg 4 3) 2 64 1 1 1
      none)).w = 2 ∧
    (runImg (pixelate_image idEnh idEnh idQuantAuto (constImg 4 3) 2 64 1 1 1
      none)).h = 1 ∧
    (dmul 2 (ddiv 3 4)).roundN = 2 := by
  refine ⟨by decide, by decide, by decide, by decide⟩

/-- C6, amended: the output dimensions are always
`(target_width * pixel_scale, trunc(target_width * aspect_ratio) *
pixel_scale)` — truncation (`int()`), not `round`, of the binary64 product;
`aspect_ratio` is taken from the image after enhancement. -/
theorem C6_output_dimensions (enhB enhC : ℚ → Img → Img)
    (quantAuto : Nat → Img → Img) (img : Img) (W ps s : Nat) (bf cf : ℚ)
    (pf : Option (String × Option (List String)))
    (hw : 0 < (contrastStep enhC cf (brightnessStep enhB bf img)).w)
    (hok : (pixelate_image enhB enhC quantAuto img W ps s bf cf pf).isOk
      = true) :
    (runImg (pixelate_image enhB enhC quantAuto img W ps s bf cf pf)).w
      = W * s ∧
    (runImg (pixelate_image enhB enhC quantAuto img W ps s bf cf pf)).h
      = (dmul W (ddiv
          (contrastStep enhC cf (brightnessStep enhB bf img)).h
          (contrastStep enhC cf (brightnessStep enhB bf img)).w)).floorN
          * s := by
  cases hres : pixelate_image enhB enhC quantAuto img W ps s bf cf pf with
  | error e => rw [hres] at hok; simp [Except.isOk, Except.toBool] at hok
  | ok p =>
    have := pixelate_image_dims enhB enhC quantAuto img W ps s bf cf pf
      p.1 p.2 (by rw [hres])
    obtain ⟨i, ls⟩ := p
    exact this

/-- Witness for C6's amended theorem: a 4×3 input, `target_width = 2`,
`pixel_scale = 3` gives a 6×3 output. -/
theorem C6_output_dimensions_witness :
    (runImg (pixelate_image idEnh idEnh idQuantAuto (constImg 4 3)
      2 64 3 1 1 none)).w = 2 * 3 ∧
    (runImg (pixelate_image idEnh idEnh idQuantAuto (constImg 4 3)
      2 64 3 1 1 none)).h
      = (dmul 2 (ddiv
          (contrastStep idEnh 1 (brightnessStep idEnh 1 (constImg 4 3))).h
          (contrastStep idEnh 1 (brightnessStep idEnh 1 (constImg 4 3))).w)).floorN
          * 3 :=
  C6_output_dimensions idEnh idEnh idQuantAuto (constImg 4 3) 2 64 3 1 1
    none (by decide) (by decide)

/-! ## Frame loop lemmas (claims C8 and C10) -/

theorem processFrames_ok_names (pixFn : Img → Except Unit Img) :
    ∀ (fs : List Img) (idx : Nat) (outs : List (String × Img)),
      processFrames pixFn idx fs = Except.ok outs →
      outs.length = fs.length ∧
      outs.map Prod.fst =
        (List.range fs.length).map (fun i => frameName (idx + i)) := by
  intro fs
  induction fs with
  | nil =>
    intro idx outs h
    unfold processFrames at h
    simp only [Except.ok.injEq] at h
    subst h
    simp
  | cons f fs ih =>
    intro idx outs h
    unfold processFrames at h
    cases hpix : pixFn f with
    | error e => rw [hpix] at h; exact absurd h (by simp)
    | ok g =>
      rw [hpix] at h
      cases hrest : processFrames pixFn (idx + 1) fs with
      | error e => rw [hrest] at h; exact absurd h (by simp)
      | ok rest =>
        rw [hrest] at h
        simp only [Except.ok.injEq] at h
        subst h
        obtain ⟨hlen, hnames⟩ := ih (idx + 1) rest hrest
        constructor
        · simp [hlen]
        · simp only [List.map_cons, List.length_cons, List.range_succ_eq_map,
            List.map_map]
          rw [hnames, Nat.add_zero]
          congr 1
          apply List.map_congr_left
          intro i _
          simp only [Function.comp]
          congr 1
          omega

/-- C8: a `pixelate_video` run whose frame loop and encoder succeed writes
exactly one pixelated frame image per decoded input frame, and the frame
file names are, in decode order, `frame_00000_pixelated.png`,
`frame_00001_pixelated.png`, … — the zero-padded sequential index starting
at 0. -/
theorem C8_one_frame_per_decoded (enhB enhC : ℚ → Img → Img)
    (quantAuto : Nat → Img → Img) (tw ps s : Nat) (bf cf : ℚ)
    (pf : Option (String × Option (List String))) (fps native : ℚ)
    (decodedFrames : List Img) (ffmpegOk : Bool)
    (hok : (pixelate_video enhB enhC quantAuto tw ps s bf cf pf fps native
      decodedFrames ffmpegOk).result = Except.ok ()) :
    (pixelate_video enhB enhC quantAuto tw ps s bf cf pf fps native
      decodedFrames ffmpegOk).frames.length = decodedFrames.length ∧
    (pixelate_video enhB enhC quantAuto tw ps s bf cf pf fps native
      decodedFrames ffmpegOk).frames.map Prod.fst =
      (List.range decodedFrames.length).map frameName := by
  unfold pixelate_video at hok ⊢
  dsimp only at hok ⊢
  cases hp : processFrames (framePixelate enhB enhC quantAuto tw ps s bf cf pf)
      0 decodedFrames with
  | error e =>
    rw [hp] at hok
    exact Except.noConfusion hok
  | ok outs =>
    obtain ⟨hlen, hnames⟩ := processFrames_ok_names _ decodedFrames 0 outs hp
    dsimp only
    refine ⟨hlen, ?_⟩
    rw [hnames]
    apply List.map_congr_left
    intro i _
    rw [Nat.zero_add]

/-- Witness for C8: two decoded frames yield exactly the two frame files
`frame_00000_pixelated.png` and `frame_00001_pixelated.png`, in order. -/
theorem C8_one_frame_per_decoded_witness :
    (pixelate_video idEnh idEnh idQuantAuto 2 4 1 1 1 none 30 24
      [constImg 2 2, constImg 3 2] true).frames.length = 2 ∧
    (pixelate_video idEnh idEnh idQuantAuto 2 4 1 1 1 none 30 24
      [constImg 2 2, constImg 3 2] true).frames.map Prod.fst =
      ["frame_00000_pixelated.png", "frame_00001_pixelated.png"] := by
  have h := C8_one_frame_per_decoded idEnh idEnh idQuantAuto 2 4 1 1 1 none
    30 24 [constImg 2 2, constImg 3 2] true (by decide)
  exact ⟨h.1, h.2.trans (by decide)⟩

/-- C10: when per-frame pixelation raises partway through the frame loop,
the `with TemporaryDirectory()` block still cleans the temporary directory
on that exit path, but `video.release()` (placed after the loop, not in a
`finally`) never runs. -/
theorem C10_error_cleanup_no_release (enhB enhC : ℚ → Img → Img)
    (quantAuto : Nat → Img → Img) (tw ps s : Nat) (bf cf : ℚ)
    (pf : Option (String × Option (List String))) (fps native : ℚ)
    (decodedFrames : List Img) (ffmpegOk : Bool) (e : Unit)
    (herr : processFrames (framePixelate enhB enhC quantAuto tw ps s bf cf pf)
      0 decodedFrames = Except.error e) :
    (pixelate_video enhB enhC quantAuto tw ps s bf cf pf fps native
      decodedFrames ffmpegOk).tempCleaned = true ∧
    (pixelate_video enhB enhC quantAuto tw ps s bf cf pf fps native
      decodedFrames ffmpegOk).released = false ∧
    (pixelate_video enhB enhC quantAuto tw ps s bf cf pf fps native
      decodedFrames ffmpegOk).result = Except.error e := by
  unfold pixelate_video
  dsimp only
  rw [herr]
  exact ⟨rfl, rfl, rfl⟩

/-- Witness for C10: a malformed palette line makes the first frame's
pixelation raise; the temporary directory is cleaned and the decoder is
not released. -/
theorem C10_error_cleanup_no_release_witness :
    (pixelate_video idEnh idEnh idQuantAuto 2 4 1 1 1 (some ("p", some ["zz"]))
      30 24 [constImg 2 2] true).tempCleaned = true ∧
    (pixelate_video idEnh idEnh idQuantAuto 2 4 1 1 1 (some ("p", some ["zz"]))
      30 24 [constImg 2 2] true).released = false ∧
    (pixelate_video idEnh idEnh idQuantAuto 2 4 1 1 1 (some ("p", some ["zz"]))
      30 24 [constImg 2 2] true).result = Except.error () :=
  C10_error_cleanup_no_release idEnh idEnh idQuantAuto 2 4 1 1 1
    (some ("p", some ["zz"])) 30 24 [constImg 2 2] true () rfl

/-! ## Nearest-color quantization is the identity on palette colors
(claim C4) -/

theorem colorDist_self (c : Color) : colorDist c c = 0 := by
  unfold colorDist
  ring

theorem colorDist_nonneg (c d : Color) : 0 ≤ colorDist c d := by
  unfold colorDist
  positivity

theorem colorDist_eq_zero {c d : Color} (h : colorDist c d = 0) : d = c := by
  obtain ⟨c1, c2, c3⟩ := c
  obtain ⟨d1, d2, d3⟩ := d
  unfold colorDist at h
  dsimp only at h
  have f1 : c1 = d1 := by
    nlinarith [sq_nonneg (c1 - d1), sq_nonneg (c2 - d2), sq_nonneg (c3 - d3)]
  have f2 : c2 = d2 := by
    nlinarith [sq_nonneg (c1 - d1), sq_nonneg (c2 - d2), sq_nonneg (c3 - d3)]
  have f3 : c3 = d3 := by
    nlinarith [sq_nonneg (c1 - d1), sq_nonneg (c2 - d2), sq_nonneg (c3 - d3)]
  simp [f1, f2, f3]

theorem foldl_choice_mem (c : Color) :
    ∀ (l : List Color) (b : Color),
      l.foldl (fun best q =>
        if colorDist c q < colorDist c best then q else best) b ∈ b :: l := by
  intro l
  induction l with
  | nil => intro b; simp
  | cons a l' ih =>
    intro b
    simp only [List.foldl_cons]
    by_cases h : colorDist c a < colorDist c b
    · rw [if_pos h]
      rcases List.mem_cons.mp (ih a) with h1 | h1
      · rw [h1]; simp
      · simp [h1]
    · rw [if_neg h]
      rcases List.mem_cons.mp (ih b) with h1 | h1
      · rw [h1]; simp
      · simp [h1]

theorem foldl_choice_le (c : Color) :
    ∀ (l : List Color) (b : Color),
      colorDist c (l.foldl (fun best q =>
          if colorDist c q < colorDist c best then q else best) b)
        ≤ colorDist c b ∧
      ∀ a ∈ l, colorDist c (l.foldl (fun best q =>
          if colorDist c q < colorDist c best then q else best) b)
        ≤ colorDist c a := by
  intro l
  induction l with
  | nil => intro b; exact ⟨le_refl _, by simp⟩
  | cons a l' ih =>
    intro b
    simp only [List.foldl_cons]
    obtain ⟨h1, h2⟩ := ih (if colorDist c a < colorDist c b then a else b)
    have hstep : colorDist c (if colorDist c a < colorDist c b then a else b)
        ≤ colorDist c b ∧
        colorDist c (if colorDist c a < colorDist c b then a else b)
        ≤ colorDist c a := by
      by_cases h : colorDist c a < colorDist c b
      · rw [if_pos h]; exact ⟨le_of_lt h, le_refl _⟩
      · rw [if_neg h]; exact ⟨le_refl _, not_lt.mp h⟩
    refine ⟨h1.trans hstep.1, ?_⟩
    intro x hx
    rcases List.mem_cons.mp hx with rfl | hmem
    · exact h1.trans hstep.2
    · exact h2 x hmem

theorem nearestColor_mem {P : List Color} (hne : P ≠ []) (c : Color) :
    nearestColor P c ∈ P := by
  cases P with
  | nil => exact absurd rfl hne
  | cons p ps => exact foldl_choice_mem c ps p

theorem nearestColor_of_mem {P : List Color} {c : Color} (h : c ∈ P) :
    nearestColor P c = c := by
  cases P with
  | nil => cases h
  | cons p ps =>
    obtain ⟨h1, h2⟩ := foldl_choice_le c ps p
    have hle : colorDist c (nearestColor (p :: ps) c) ≤ 0 := by
      rcases List.mem_cons.mp h with rfl | hmem
      · exact le_of_le_of_eq h1 (colorDist_self c)
      · exact le_of_le_of_eq (h2 c hmem) (colorDist_self c)
    exact colorDist_eq_zero
      (le_antisymm hle (colorDist_nonneg c (nearestColor (p :: ps) c)))

/-! ## Index arithmetic of the two nearest-neighbor resizes (claim C4) -/

/-- Center-point sampling at an integer scale change: the sample index for
output column `x` of a resize from width `2*s*W`-style ratios reduces to
`x / s`. -/
theorem sample_down (x s : Nat) (hs : 0 < s) : (2 * x + 1) / (2 * s) = x / s := by
  have key : ∀ q r, r < s → (2 * (s * q + r) + 1) / (2 * s) = q := by
    intro q r hr
    have hx : 2 * (s * q + r) + 1 = (2 * r + 1) + (2 * s) * q := by ring
    rw [hx, Nat.add_mul_div_left _ _ (by omega : 0 < 2 * s),
      Nat.div_eq_of_lt (by omega)]
    omega
  conv_lhs => rw [← Nat.div_add_mod x s]
  exact key (x / s) (x % s) (Nat.mod_lt x hs)

/-- Cancelling the common factor in the sampling index of the final
enlargement: `(2*x+1)*W / (2*(W*s)) = x / s`. -/
theorem sample_up (x W s : Nat) (hW : 0 < W) (hs : 0 < s) :
    (2 * x + 1) * W / (2 * (W * s)) = x / s := by
  rw [show (2 * x + 1) * W = W * (2 * x + 1) by ring,
    show 2 * (W * s) = W * (2 * s) by ring,
    Nat.mul_div_mul_left _ _ hW, sample_down x s hs]

/-- The sampling index of the second run's downscale lands in the middle of
each `s × s` block: `(2*a+1)*(W*s) / (2*W) = a*s + s/2`. -/
theorem sample_mid (a W s : Nat) (hW : 0 < W) :
    (2 * a + 1) * (W * s) / (2 * W) = a * s + s / 2 := by
  rw [show (2 * a + 1) * (W * s) = W * (s + 2 * (a * s)) by ring,
    show 2 * W = W * 2 by ring, Nat.mul_div_mul_left _ _ hW,
    Nat.add_mul_div_left _ _ (by omega : 0 < 2),
    Nat.add_comm]

/-- A block-middle index maps back to its block: `(a*s + s/2) / s = a`. -/
theorem block_back (a s : Nat) (hs : 0 < s) : (a * s + s / 2) / s = a := by
  rw [show a * s + s / 2 = s / 2 + s * a by ring,
    Nat.add_mul_div_left _ _ hs,
    Nat.div_eq_of_lt (Nat.div_lt_self hs (by omega))]
  omega

/-- Running downscale–quantize–upscale a second time (with the same palette,
target width and scale) on the first run's output reproduces that output
pixel-for-pixel, whenever both runs use the same target height `T`.  The
enlargement writes each quantized pixel as an `s × s` block; the second
downscale samples the middle of each block, recovering the quantized image
exactly, and re-quantizing palette colors with the same palette is the
identity on values. -/
theorem requantize (P : List Color) (hne : P ≠ []) (img : Img) (W T s : Nat)
    (hW : 0 < W) (hs : 0 < s) :
    ImageEq
      (resizeNearest (quantizeToPalette P (resizeNearest
        (resizeNearest (quantizeToPalette P (resizeNearest img W T))
          (W * s) (T * s)) W T)) (W * s) (T * s))
      (resizeNearest (quantizeToPalette P (resizeNearest img W T))
        (W * s) (T * s)) := by
  set Q := quantizeToPalette P (resizeNearest img W T) with hQ
  set O := resizeNearest Q (W * s) (T * s) with hO
  refine ⟨rfl, rfl, ?_⟩
  intro x y hx hy
  have hx' : x < W * s := hx
  have hy' : y < T * s := hy
  have hT : 0 < T := by
    rcases Nat.eq_zero_or_pos T with h | h
    · rw [h, Nat.zero_mul] at hy'; omega
    · exact h
  have e1 : ∀ a b : Nat, O.pix a b =
      Q.pix ((2 * a + 1) * W / (2 * (W * s)))
        ((2 * b + 1) * T / (2 * (T * s))) := fun a b => rfl
  have e2 : ∀ a b : Nat, (resizeNearest O W T).pix a b =
      O.pix ((2 * a + 1) * (W * s) / (2 * W))
        ((2 * b + 1) * (T * s) / (2 * T)) := fun a b => rfl
  have e4 : ∀ a b : Nat,
      (resizeNearest (quantizeToPalette P (resizeNearest O W T))
        (W * s) (T * s)).pix a b =
      nearestColor P ((resizeNearest O W T).pix
        ((2 * a + 1) * W / (2 * (W * s)))
        ((2 * b + 1) * T / (2 * (T * s)))) := fun a b => rfl
  show (resizeNearest (quantizeToPalette P (resizeNearest O W T))
      (W * s) (T * s)).pix x y = O.pix x y
  rw [e4, e2]
  rw [sample_up x W s hW hs, sample_up y T s hT hs]
  rw [sample_mid (x / s) W s hW, sample_mid (y / s) T s hT]
  rw [e1 (x / s * s + s / 2) (y / s * s + s / 2), e1 x y]
  rw [sample_up (x / s * s + s / 2) W s hW hs,
    sample_up (y / s * s + s / 2) T s hT hs,
    sample_up x W s hW hs, sample_up y T s hT hs]
  rw [block_back (x / s) s hs, block_back (y / s) s hs]
  have hmem : Q.pix (x / s) (y / s) ∈ P := nearestColor_mem hne _
  exact nearestColor_of_mem hmem

/-- At factor 1.0 both enhancement guards fail, so the enhancement stage is
the identity (helper shared by several claims). -/
theorem enhance_one (enhB enhC : ℚ → Img → Img) (img : Img) :
    contrastStep enhC 1 (brightnessStep enhB 1 img) = img := by
  simp [brightnessStep, contrastStep]

/-- A successful palette load yields `(some palette, no diagnostics)`. -/
theorem load_ok (path : String) {lines : List String} {P : List Color}
    (hP : parseLines lines = Except.ok P) :
    load_palette_from_file path (some lines) = Except.ok (some P, []) := by
  show (match parseLines lines with
    | Except.error e => Except.error e
    | Except.ok cs => Except.ok (some cs, [])) = Except.ok (some P, [])
  rw [hP]

/-- The explicit form of a `pixelate_image` run at identity enhancement
factors with a palette file that loads to a non-empty palette:
downscale to `(W, T)`, quantize to the palette, enlarge by `s`. -/
theorem pixelate_image_palette_run (enhB enhC : ℚ → Img → Img)
    (quantAuto : Nat → Img → Img) (img : Img) (W ps s : Nat) (path : String)
    (lines : List String) (P : List Color)
    (hP : parseLines lines = Except.ok P) (hne : P ≠ []) :
    pixelate_image enhB enhC quantAuto img W ps s 1 1
      (some (path, some lines)) =
    Except.ok (resizeNearest
      (quantizeToPalette P
        (resizeNearest img W (pyTargetHeight W img.h img.w)))
      (W * s) (pyTargetHeight W img.h img.w * s), []) := by
  obtain ⟨c, cs, rfl⟩ : ∃ c cs, P = c :: cs := by
    cases P with
    | nil => exact absurd rfl hne
    | cons c cs => exact ⟨c, cs, rfl⟩
  unfold pixelate_image
  dsimp only
  rw [enhance_one, load_ok path hP]

/-- C4, counterexample to the claim as stated: a 40×1 input with
`target_width = 49`, `pixel_scale = 1` and the one-color palette file
`000000` pixelates to a 49×1 image; re-running `pixelate_image` on that
output with the same parameters computes `int(49 * (1/49)) =
int(0.9999999999999999) = 0` as the new target height and produces a 49×0
image, so the second output does not reproduce the first output's pixel
values. -/
theorem C4_counterexample :
    (pixelate_image idEnh idEnh idQuantAuto (constImg 40 1) 49 64 1 1 1
      (some ("p", some ["000000"]))).isOk = true ∧
    (runImg (pixelate_image idEnh idEnh idQuantAuto (constImg 40 1) 49 64 1 1 1
      (some ("p", some ["000000"])))).h = 1 ∧
    (runImg (pixelate_image idEnh idEnh idQuantAuto
      (runImg (pixelate_image idEnh idEnh idQuantAuto (constImg 40 1)
        49 64 1 1 1 (some ("p", some ["000000"]))))
      49 64 1 1 1 (some ("p", some ["000000"])))).h = 0 ∧
    ¬ ImageEq
      (runImg (pixelate_image idEnh idEnh idQuantAuto
        (runImg (pixelate_image idEnh idEnh idQuantAuto (constImg 40 1)
          49 64 1 1 1 (some ("p", some ["000000"]))))
        49 64 1 1 1 (some ("p", some ["000000"]))))
      (runImg (pixelate_image idEnh idEnh idQuantAuto (constImg 40 1)
        49 64 1 1 1 (some ("p", some ["000000"])))) := by
  refine ⟨by decide, by decide, by decide, ?_⟩
  intro hEq
  obtain ⟨-, hh, -⟩ := hEq
  exact absurd hh (by decide)

/-- C4, amended: pixelation with a fixed (successfully loaded, non-empty)
palette at identity brightness/contrast is idempotent whenever re-running
the height computation on the first output's dimensions reproduces the same
target height (`int(W * ((T*s) / (W*s))) = T` in binary64) — then the second
run's output equals the first pixel-for-pixel.  Without that proviso the
claim fails: double-precision rounding can shrink the recomputed height
(see the 40×1 / width-49 counterexample). -/
theorem C4_idempotent_given_stable_height (enhB enhC : ℚ → Img → Img)
    (quantAuto : Nat → Img → Img) (img : Img) (W ps s : Nat) (path : String)
    (lines : List String) (P : List Color) (hW : 0 < W) (hs : 0 < s)
    (hP : parseLines lines = Except.ok P) (hne : P ≠ [])
    (hstab : pyTargetHeight W (pyTargetHeight W img.h img.w * s) (W * s)
      = pyTargetHeight W img.h img.w) :
    (pixelate_image enhB enhC quantAuto img W ps s 1 1
      (some (path, some lines))).isOk = true ∧
    (pixelate_image enhB enhC quantAuto
      (runImg (pixelate_image enhB enhC quantAuto img W ps s 1 1
        (some (path, some lines))))
      W ps s 1 1 (some (path, some lines))).isOk = true ∧
    ImageEq
      (runImg (pixelate_image enhB enhC quantAuto
        (runImg (pixelate_image enhB enhC quantAuto img W ps s 1 1
          (some (path, some lines))))
        W ps s 1 1 (some (path, some lines))))
      (runImg (pixelate_image enhB enhC quantAuto img W ps s 1 1
        (some (path, some lines)))) := by
  have h1 := pixelate_image_palette_run enhB enhC quantAuto img W ps s path
    lines P hP hne
  set T := pyTargetHeight W img.h img.w with hTdef
  set O := resizeNearest (quantizeToPalette P (resizeNearest img W T))
    (W * s) (T * s) with hOdef
  have hrun1 : runImg (pixelate_image enhB enhC quantAuto img W ps s 1 1
      (some (path, some lines))) = O := by
    rw [h1]
    rfl
  have h2 := pixelate_image_palette_run enhB enhC quantAuto O W ps s path
    lines P hP hne
  have hT2 : pyTargetHeight W O.h O.w = T := hstab
  rw [hT2] at h2
  have hrun2 : runImg (pixelate_image enhB enhC quantAuto O W ps s 1 1
      (some (path, some lines))) =
      resizeNearest (quantizeToPalette P (resizeNearest O W T))
        (W * s) (T * s) := by
    rw [h2]
    rfl
  refine ⟨?_, ?_, ?_⟩
  · rw [h1]; rfl
  · rw [hrun1, h2]; rfl
  · rw [hrun1, hrun2]
    exact requantize P hne img W T s hW hs

/-- Witness for C4's amended theorem: a 2×2 input, `target_width = 2`,
`pixel_scale = 2`, palette `[000000, FFFFFF]`; the recomputed height
`int(2 * (4/4)) = 2` is stable, and the second run reproduces the first
output exactly. -/
theorem C4_idempotent_given_stable_height_witness :
    (pixelate_image idEnh idEnh idQuantAuto (constImg 2 2) 2 64 2 1 1
      (some ("p", some ["000000", "FFFFFF"]))).isOk = true ∧
    (pixelate_image idEnh idEnh idQuantAuto
      (runImg (pixelate_image idEnh idEnh idQuantAuto (constImg 2 2) 2 64 2 1 1
        (some ("p", some ["000000", "FFFFFF"]))))
      2 64 2 1 1 (some ("p", some ["000000", "FFFFFF"]))).isOk = true ∧
    ImageEq
      (runImg (pixelate_image idEnh idEnh idQuantAuto
        (runImg (pixelate_image idEnh idEnh idQuantAuto (constImg 2 2)
          2 64 2 1 1 (some ("p", some ["000000", "FFFFFF"]))))
        2 64 2 1 1 (some ("p", some ["000000", "FFFFFF"]))))
      (runImg (pixelate_image idEnh idEnh idQuantAuto (constImg 2 2) 2 64 2 1 1
        (some ("p", some ["000000", "FFFFFF"])))) :=
  C4_idempotent_given_stable_height idEnh idEnh idQuantAuto (constImg 2 2)
    2 64 2 "p" ["000000", "FFFFFF"] [(0, 0, 0), (255, 255, 255)]
    (by decide) (by decide) (by decide) (by decide) (by decide)
